import Mathlib

/-!
Shallow embedding of the logtools logging library (src/log.h, src/log.cpp,
src/STDLogSink.cpp, src/FILELogSink.cpp, src/ColoredSTDLogSink.cpp).

Strings are modelled as `List Char`.  Stateful sink methods are modelled as
pure functions from the relevant pieces of sink state to the produced output
together with the new state; writes to stdout/stderr/FILE* are modelled as
returned values, and the `fflush` calls (pure I/O) are omitted.
-/

namespace Logtools

/-- Severity enum values (log.h lines 60-79): FATAL=1 .. DEBUG=6, most urgent
is the smallest number. -/
def Severity.FATAL : Nat := 1

/-- Severity::ERROR (log.h). -/
def Severity.ERROR : Nat := 2

/-- Severity::WARNING (log.h). -/
def Severity.WARNING : Nat := 3

/-- Severity::NOTICE (log.h). -/
def Severity.NOTICE : Nat := 4

/-- Severity::VERBOSE (log.h). -/
def Severity.VERBOSE : Nat := 5

/-- Severity::DEBUG (log.h). -/
def Severity.DEBUG : Nat := 6

/-- LogSink::GetIndentString (log.cpp:104-105):
`std::string(m_indentSize * g_logIndentLevel, ' ')`. -/
def GetIndentString (m_indentSize g_logIndentLevel : Nat) : List Char :=
  List.replicate (m_indentSize * g_logIndentLevel) ' '

/-- The loop state of LogSink::WrapString (log.cpp:110-154): the output built
so far (`ret`), the pending line buffer (`tmp`) and the `firstLine` flag. -/
structure WrapState where
  ret : List Char
  tmp : List Char
  firstLine : Bool
deriving DecidableEq, Repr

/-- One iteration of the character loop of LogSink::WrapString
(log.cpp:120-146).  `preprocess` is the virtual PreprocessLine hook (identity
in LogSink, overridden by ColoredSTDLogSink); `m_lastMessageWasNewline` is
the sink flag read at line 132. -/
def wrapStep (preprocess : List Char → List Char) (indent : List Char)
    (m_termWidth : Nat) (m_lastMessageWasNewline : Bool)
    (st : WrapState) (ch : Char) : WrapState :=
  let tmp := st.tmp ++ [ch]
  if tmp.length + indent.length < m_termWidth ∧ ch ≠ '\n' then
    { st with tmp := tmp }
  else
    let ret₁ := if (st.firstLine && m_lastMessageWasNewline) || !st.firstLine
      then st.ret ++ indent else st.ret
    let ret₂ := ret₁ ++ preprocess tmp
    let ret₃ := if ch ≠ '\n' then ret₂ ++ ['\n'] else ret₂
    ⟨ret₃, [], false⟩

/-- LogSink::WrapString (log.cpp:110-154): fold the character loop over the
input, then append any leftover partial buffer. -/
def WrapString (preprocess : List Char → List Char) (indent : List Char)
    (m_termWidth : Nat) (m_lastMessageWasNewline : Bool)
    (str : List Char) : List Char :=
  let st := str.foldl (wrapStep preprocess indent m_termWidth m_lastMessageWasNewline)
    ⟨[], [], true⟩
  if st.tmp = [] then st.ret else st.ret ++ st.tmp

/-- The update of m_lastMessageWasNewline performed after writing
(STDLogSink.cpp:93-97 and 121-125, FILELogSink.cpp:71-75 and 91-95). -/
def newlineFlagUpdate (wrapped : List Char) (m_lastMessageWasNewline : Bool) : Bool :=
  if wrapped.length ≠ 0 ∧ wrapped.getLast? = some '\n' then true
  else if wrapped ≠ [] then false
  else m_lastMessageWasNewline

/-- Which stream an STDLogSink write goes to. -/
inductive Stream where
  | stdout : Stream
  | stderr : Stream
deriving DecidableEq, Repr

/-- STDLogSink::Log(Severity, const string&) (STDLogSink.cpp:72-98).  Returns
the text written and its stream (`none` when the severity filter discards the
message) together with the new m_lastMessageWasNewline.  The Flush calls are
pure I/O and have no modelled effect. -/
def STDLogSink.Log (m_min_severity : Nat) (g_logToStdoutAlways : Bool)
    (m_termWidth : Nat) (indent : List Char) (m_lastMessageWasNewline : Bool)
    (severity : Nat) (msg : List Char) : Option (List Char × Stream) × Bool :=
  if m_min_severity < severity then (none, m_lastMessageWasNewline)
  else
    let wrapped := WrapString id indent m_termWidth m_lastMessageWasNewline msg
    let strm : Stream :=
      if severity ≤ Severity.WARNING ∧ ¬ g_logToStdoutAlways then .stderr else .stdout
    (some (wrapped, strm), newlineFlagUpdate wrapped m_lastMessageWasNewline)

/-- STDLogSink::Log(Severity, const char*, va_list) (STDLogSink.cpp:100-126).
The vstrprintf call of line 111 is modelled as a thunk evaluated only after
the severity filter admits the message. -/
def STDLogSink.LogVa (m_min_severity : Nat) (g_logToStdoutAlways : Bool)
    (m_termWidth : Nat) (indent : List Char) (m_lastMessageWasNewline : Bool)
    (severity : Nat) (vstrprintfResult : Unit → List Char) :
    Option (List Char × Stream) × Bool :=
  if m_min_severity < severity then (none, m_lastMessageWasNewline)
  else
    let wrapped := WrapString id indent m_termWidth m_lastMessageWasNewline
      (vstrprintfResult ())
    let strm : Stream :=
      if severity ≤ Severity.WARNING ∧ ¬ g_logToStdoutAlways then .stderr else .stdout
    (some (wrapped, strm), newlineFlagUpdate wrapped m_lastMessageWasNewline)

/-- FILELogSink::Log(Severity, const string&) (FILELogSink.cpp:62-80).  The
text written to m_file is returned (`none` when filtered). -/
def FILELogSink.Log (m_min_severity : Nat) (m_termWidth : Nat)
    (indent : List Char) (m_lastMessageWasNewline : Bool)
    (severity : Nat) (msg : List Char) : Option (List Char) × Bool :=
  if m_min_severity < severity then (none, m_lastMessageWasNewline)
  else
    let wrapped := WrapString id indent m_termWidth m_lastMessageWasNewline msg
    (some wrapped, newlineFlagUpdate wrapped m_lastMessageWasNewline)

/-- FILELogSink::Log(Severity, const char*, va_list) (FILELogSink.cpp:82-100),
with vstrprintf as a thunk evaluated only past the severity filter. -/
def FILELogSink.LogVa (m_min_severity : Nat) (m_termWidth : Nat)
    (indent : List Char) (m_lastMessageWasNewline : Bool)
    (severity : Nat) (vstrprintfResult : Unit → List Char) :
    Option (List Char) × Bool :=
  if m_min_severity < severity then (none, m_lastMessageWasNewline)
  else
    let wrapped := WrapString id indent m_termWidth m_lastMessageWasNewline
      (vstrprintfResult ())
    (some wrapped, newlineFlagUpdate wrapped m_lastMessageWasNewline)

/-- std::string::find for a substring (position of the first occurrence),
as used by ColoredSTDLogSink::replace (ColoredSTDLogSink.cpp:96). -/
def strFind (search : List Char) : List Char → Option Nat
  | [] => if search = [] then some 0 else none
  | c :: rest =>
    if search.isPrefixOf (c :: rest) then some 0
    else (strFind search rest).map (· + 1)

/-- ColoredSTDLogSink::replace (ColoredSTDLogSink.cpp:89-107): if `search`
does not occur in `subject` return it unchanged, else insert `before` at the
start and `after` right past the end of the first occurrence. -/
def ColoredSTDLogSink.replace (search before after subject : List Char) : List Char :=
  match strFind search subject with
  | none => subject
  | some pos =>
    let e := pos + search.length
    before ++ subject.take e ++ after ++ subject.drop e

/-- ANSI red escape (ColoredSTDLogSink.cpp:61). -/
def ansiRed : List Char := "\x1b[31;1m".toList

/-- ANSI yellow escape (ColoredSTDLogSink.cpp:62). -/
def ansiYellow : List Char := "\x1b[33;1m".toList

/-- ANSI reset escape (ColoredSTDLogSink.cpp:63). -/
def ansiClear : List Char := "\x1b[0m".toList

/-- red_strings (ColoredSTDLogSink.cpp:52-58). -/
def red_strings : List (List Char) :=
  ["INTERNAL ERROR".toList, "ERROR".toList, "Error".toList, "error".toList]

/-- yellow_strings (ColoredSTDLogSink.cpp:73-78). -/
def yellow_strings : List (List Char) :=
  ["WARNING".toList, "Warning".toList, "warning".toList]

/-- ColoredSTDLogSink::PreprocessLine (ColoredSTDLogSink.cpp:49-86): fold the
keyword substitutions over the line, red keywords first, each substitution
applied to the line as rewritten by the previous ones. -/
def ColoredSTDLogSink.PreprocessLine (line : List Char) : List Char :=
  let l₁ := red_strings.foldl
    (fun l s => ColoredSTDLogSink.replace (s ++ [':']) ansiRed ansiClear l) line
  yellow_strings.foldl
    (fun l s => ColoredSTDLogSink.replace (s ++ [':']) ansiYellow ansiClear l) l₁

/-- Observable events of a fan-out dispatch: a message handed to the sink at
a given registry index, or the final abort() call. -/
inductive LogEvent where
  | deliver : Nat → Nat → List Char → LogEvent
  | processAbort : LogEvent
deriving DecidableEq, Repr

/-- The companion bug-report line of LogFatal (log.cpp:257-258). -/
def bugReportLine : List Char :=
  "    This indicates a bug in the program, please file a report via Github\n".toList

/-- LogFatal (log.cpp:243-262) as an event trace over `numSinks` registered
sinks.  The code prepends the literal "INTERNAL ERROR: " to the format string
and lets each sink run vstrprintf on its own copy of the argument list; since
the prefix holds no conversion specifier, the first delivered body equals the
prefix followed by the formatted text, taken here as the opaque `body`. -/
def LogFatal (numSinks : Nat) (body : List Char) : List LogEvent :=
  ((List.range numSinks).map (fun i =>
    [LogEvent.deliver i Severity.FATAL ("INTERNAL ERROR: ".toList ++ body),
     LogEvent.deliver i Severity.FATAL bugReportLine])).flatten
  ++ [LogEvent.processAbort]

/-- The trace-filter check of LogDebugTrace (log.cpp:398-408), taking the
already-parsed class and function names (log.cpp:351-399) as inputs.
`g_trace_filters` (a std::set of strings) is modelled as a list queried for
membership.  The code first rebuilds `sfunc = cls + "::" + name` and then
looks up `sfunc` for free functions (empty class) and the bare `cls`
otherwise. -/
def traceFilterAllows (g_trace_filters : List (List Char))
    (cls name : List Char) : Bool :=
  let sfunc := cls ++ (':' :: ':' :: []) ++ name
  if cls = [] then decide (sfunc ∈ g_trace_filters)
  else decide (cls ∈ g_trace_filters)

/-- Modulus of the 32-bit unsigned g_logIndentLevel (log.cpp:53). -/
def UINT_MOD : Nat := 2 ^ 32

/-- LogIndenter::LogIndenter (log.cpp:164-168): g_logIndentLevel++ on the
thread-local unsigned counter. -/
def LogIndenter.construct (g_logIndentLevel : Nat) : Nat :=
  (g_logIndentLevel + 1) % UINT_MOD

/-- LogIndenter::~LogIndenter (log.cpp:170-173): g_logIndentLevel-- with
unsigned wraparound. -/
def LogIndenter.destruct (g_logIndentLevel : Nat) : Nat :=
  (g_logIndentLevel + (UINT_MOD - 1)) % UINT_MOD

/-- Reference shape of WrapString on newline-free input with the indent of
length `termWidth - W`: full chunks of `W` characters are flushed with an
inserted newline, the remainder is appended bare. -/
def wrapChunks (indent : List Char) (W : Nat) (s : List Char) : List Char :=
  if _h : 0 < W ∧ W ≤ s.length then
    indent ++ s.take W ++ '\n' :: wrapChunks indent W (s.drop W)
  else s
termination_by s.length
decreasing_by simp only [List.length_drop]; omega

/-- Number of newline characters in a string. -/
def countNl : List Char → Nat
  | [] => 0
  | c :: rest => (if c = '\n' then 1 else 0) + countNl rest

/-- Split a string into the list of its newline-separated segments (the
newline characters themselves are dropped). -/
def splitLines : List Char → List (List Char)
  | [] => [[]]
  | c :: rest =>
    if c = '\n' then [] :: splitLines rest
    else
      match splitLines rest with
      | [] => [[c]]
      | l :: ls => (c :: l) :: ls

theorem wrapString_eq_ret_tmp (pp : List Char → List Char) (indent : List Char)
    (w : Nat) (fl : Bool) (s : List Char) :
    WrapString pp indent w fl s =
      (s.foldl (wrapStep pp indent w fl) ⟨[], [], true⟩).ret
        ++ (s.foldl (wrapStep pp indent w fl) ⟨[], [], true⟩).tmp := by
  unfold WrapString
  by_cases h : (s.foldl (wrapStep pp indent w fl) ⟨[], [], true⟩).tmp = []
  · simp [h]
  · simp [h]

theorem wrapStep_continue (pp : List Char → List Char) (indent : List Char)
    (w : Nat) (fl : Bool) (st : WrapState) (ch : Char)
    (h₁ : st.tmp.length + 1 + indent.length < w) (h₂ : ch ≠ '\n') :
    wrapStep pp indent w fl st ch = { st with tmp := st.tmp ++ [ch] } := by
  unfold wrapStep
  rw [if_pos]
  exact ⟨by simpa using h₁, h₂⟩

theorem wrapStep_flush (pp : List Char → List Char) (indent : List Char)
    (w : Nat) (fl : Bool) (st : WrapState) (ch : Char)
    (h : ¬((st.tmp ++ [ch]).length + indent.length < w ∧ ch ≠ '\n')) :
    wrapStep pp indent w fl st ch =
      ⟨(if (st.firstLine && fl) || !st.firstLine then st.ret ++ indent else st.ret)
        ++ pp (st.tmp ++ [ch]) ++ (if ch ≠ '\n' then ['\n'] else []), [], false⟩ := by
  unfold wrapStep
  rw [if_neg h]
  by_cases hch : ch ≠ '\n' <;> simp [hch]

theorem foldl_wrapStep_fill (pp : List Char → List Char) (indent : List Char)
    (w : Nat) (fl : Bool) :
    ∀ (c : List Char) (ret0 tmp0 : List Char) (fl0 : Bool),
    (∀ x ∈ c, x ≠ '\n') → tmp0.length + c.length + indent.length < w →
    c.foldl (wrapStep pp indent w fl) ⟨ret0, tmp0, fl0⟩ = ⟨ret0, tmp0 ++ c, fl0⟩ := by
  intro c
  induction c with
  | nil => intro ret0 tmp0 fl0 _ _; simp
  | cons x rest ih =>
    intro ret0 tmp0 fl0 hc hlen
    have hx : x ≠ '\n' := hc x (by simp)
    rw [List.foldl_cons, wrapStep_continue pp indent w fl _ x
      (by show tmp0.length + 1 + indent.length < w
          simp only [List.length_cons] at hlen; omega) hx]
    rw [ih ret0 (tmp0 ++ [x]) fl0 (fun y hy => hc y (by simp [hy]))
      (by simp only [List.length_append, List.length_cons, List.length_nil] at *; omega)]
    simp

theorem bool_first_or_not (b : Bool) : ((b && true) || !b) = true := by
  cases b <;> rfl

theorem foldl_wrapStep_chunk (indent : List Char) (W : Nat) :
    ∀ (c : List Char) (ret0 tmp0 : List Char) (fl0 : Bool),
    (∀ x ∈ c, x ≠ '\n') → 0 < c.length → tmp0.length + c.length = W →
    c.foldl (wrapStep id indent (indent.length + W) true) ⟨ret0, tmp0, fl0⟩
      = ⟨ret0 ++ indent ++ (tmp0 ++ c) ++ ['\n'], [], false⟩ := by
  intro c
  induction c with
  | nil => intro ret0 tmp0 fl0 _ h0 _; simp at h0
  | cons x rest ih =>
    intro ret0 tmp0 fl0 hc _ hlen
    have hx : x ≠ '\n' := hc x (by simp)
    cases rest with
    | nil =>
      rw [List.foldl_cons, wrapStep_flush id indent _ true _ x
        (by simp only [List.length_append, List.length_cons, List.length_nil] at *; omega)]
      simp [bool_first_or_not, hx, List.append_assoc]
    | cons y rest' =>
      rw [List.foldl_cons, wrapStep_continue id indent _ true _ x
        (by show tmp0.length + 1 + indent.length < indent.length + W
            simp only [List.length_cons] at hlen; omega) hx]
      rw [ih ret0 (tmp0 ++ [x]) fl0 (fun z hz => hc z (by simp [hz])) (by simp)
        (by simp only [List.length_append, List.length_cons, List.length_nil] at *; omega)]
      simp

theorem foldl_wrapStep_line (indent : List Char) (W : Nat)
    (l : List Char) (hl : ∀ x ∈ l, x ≠ '\n') (hlen : l.length < W)
    (ret0 : List Char) (fl0 : Bool) :
    (l ++ ['\n']).foldl (wrapStep id indent (indent.length + W) true) ⟨ret0, [], fl0⟩
      = ⟨ret0 ++ indent ++ (l ++ ['\n']), [], false⟩ := by
  rw [List.foldl_append,
    foldl_wrapStep_fill id indent _ true l ret0 [] fl0 hl (by simp; omega)]
  rw [List.foldl_cons, List.foldl_nil, wrapStep_flush id indent _ true _ '\n' (by simp)]
  simp [bool_first_or_not, List.append_assoc]

/-- The relation that holds between the WrapString loop states for the same
input under m_lastMessageWasNewline true vs false: before the first flush
both states agree; afterwards the former's output carries exactly one extra
leading copy of the indent. -/
def flagRel (indent : List Char) (a b : WrapState) : Prop :=
  a.tmp = b.tmp ∧
    ((a.firstLine = true ∧ b.firstLine = true ∧ a.ret = [] ∧ b.ret = []) ∨
     (a.firstLine = false ∧ b.firstLine = false ∧ a.ret = indent ++ b.ret))

theorem wrapStep_flagRel (indent : List Char) (w : Nat) (a b : WrapState) (ch : Char)
    (h : flagRel indent a b) :
    flagRel indent (wrapStep id indent w true a ch) (wrapStep id indent w false b ch) := by
  obtain ⟨htmp, hcase⟩ := h
  by_cases hcond : (a.tmp ++ [ch]).length + indent.length < w ∧ ch ≠ '\n'
  · rw [wrapStep_continue id indent w true a ch (by simpa using hcond.1) hcond.2,
      wrapStep_continue id indent w false b ch
        (by rw [← htmp]; simpa using hcond.1) hcond.2]
    exact ⟨by simp [htmp], by
      rcases hcase with ⟨h₁, h₂, h₃, h₄⟩ | ⟨h₁, h₂, h₃⟩
      · exact Or.inl ⟨h₁, h₂, h₃, h₄⟩
      · exact Or.inr ⟨h₁, h₂, h₃⟩⟩
  · rw [wrapStep_flush id indent w true a ch hcond,
      wrapStep_flush id indent w false b ch (by rw [← htmp]; exact hcond)]
    refine ⟨rfl, Or.inr ⟨rfl, rfl, ?_⟩⟩
    rcases hcase with ⟨h₁, h₂, h₃, h₄⟩ | ⟨h₁, h₂, h₃⟩
    · simp [h₁, h₂, h₃, h₄, htmp, List.append_assoc]
    · simp [h₁, h₂, h₃, htmp, List.append_assoc]

theorem foldl_wrapStep_flagRel (indent : List Char) (w : Nat) (s : List Char) :
    ∀ a b, flagRel indent a b →
    flagRel indent (s.foldl (wrapStep id indent w true) a)
      (s.foldl (wrapStep id indent w false) b) := by
  induction s with
  | nil => intro a b h; exact h
  | cons x rest ih =>
    intro a b h
    exact ih _ _ (wrapStep_flagRel indent w a b x h)

theorem wrapString_flag_relation (indent : List Char) (w : Nat) (s : List Char) :
    WrapString id indent w true s = WrapString id indent w false s ∨
    WrapString id indent w true s = indent ++ WrapString id indent w false s := by
  have h := foldl_wrapStep_flagRel indent w s ⟨[], [], true⟩ ⟨[], [], true⟩
    ⟨rfl, Or.inl ⟨rfl, rfl, rfl, rfl⟩⟩
  rw [wrapString_eq_ret_tmp, wrapString_eq_ret_tmp]
  obtain ⟨htmp, hc⟩ := h
  rcases hc with ⟨_, _, har, hbr⟩ | ⟨_, _, hret⟩
  · left; rw [har, hbr, htmp]
  · right; rw [hret, htmp, List.append_assoc]

theorem foldl_wrapStep_chunks (indent : List Char) (W : Nat) (hW : 0 < W)
    (s : List Char) (hs : ∀ x ∈ s, x ≠ '\n') (ret0 : List Char) (fl0 : Bool) :
    (s.foldl (wrapStep id indent (indent.length + W) true) ⟨ret0, [], fl0⟩).ret
      ++ (s.foldl (wrapStep id indent (indent.length + W) true) ⟨ret0, [], fl0⟩).tmp
      = ret0 ++ wrapChunks indent W s := by
  by_cases h : W ≤ s.length
  · have hfold : s.foldl (wrapStep id indent (indent.length + W) true) ⟨ret0, [], fl0⟩
        = (s.drop W).foldl (wrapStep id indent (indent.length + W) true)
          ((s.take W).foldl (wrapStep id indent (indent.length + W) true) ⟨ret0, [], fl0⟩) := by
      rw [← List.foldl_append, List.take_append_drop]
    have hchunk : (s.take W).foldl (wrapStep id indent (indent.length + W) true)
        ⟨ret0, [], fl0⟩ = ⟨ret0 ++ indent ++ ([] ++ s.take W) ++ ['\n'], [], false⟩ :=
      foldl_wrapStep_chunk indent W (s.take W) ret0 [] fl0
        (fun x hx => hs x (List.take_subset W s hx))
        (by simp only [List.length_take]; omega)
        (by simp only [List.length_nil, List.length_take]; omega)
    have hrhs : wrapChunks indent W s
        = indent ++ s.take W ++ '\n' :: wrapChunks indent W (s.drop W) := by
      conv_lhs => rw [wrapChunks]
      rw [dif_pos ⟨hW, h⟩]
    rw [hfold, hchunk,
      foldl_wrapStep_chunks indent W hW (s.drop W)
        (fun x hx => hs x (List.drop_subset W s hx)) _ false, hrhs]
    simp [List.append_assoc]
  · rw [foldl_wrapStep_fill id indent _ true s ret0 [] fl0 hs
      (by simp only [List.length_nil]; omega)]
    have hrhs : wrapChunks indent W s = s := by
      rw [wrapChunks]; exact dif_neg (by omega)
    simp [hrhs]
termination_by s.length
decreasing_by simp only [List.length_drop]; omega

theorem countNl_append (a b : List Char) :
    countNl (a ++ b) = countNl a + countNl b := by
  induction a with
  | nil => simp [countNl]
  | cons x r ih => simp [countNl, ih, Nat.add_assoc]

theorem countNl_eq_zero (a : List Char) (h : ∀ x ∈ a, x ≠ '\n') : countNl a = 0 := by
  induction a with
  | nil => rfl
  | cons x r ih =>
    simp only [countNl, if_neg (h x (by simp)), Nat.zero_add]
    exact ih (fun y hy => h y (by simp [hy]))

theorem countNl_wrapChunks (indent : List Char) (W : Nat) (hW : 0 < W)
    (hind : ∀ x ∈ indent, x ≠ '\n')
    (s : List Char) (hs : ∀ x ∈ s, x ≠ '\n') :
    countNl (wrapChunks indent W s) = s.length / W := by
  by_cases h : W ≤ s.length
  · have hunf : wrapChunks indent W s
        = indent ++ s.take W ++ '\n' :: wrapChunks indent W (s.drop W) := by
      conv_lhs => rw [wrapChunks]
      rw [dif_pos ⟨hW, h⟩]
    have hcons : countNl ('\n' :: wrapChunks indent W (s.drop W))
        = 1 + countNl (wrapChunks indent W (s.drop W)) := by
      simp [countNl]
    rw [hunf, countNl_append, countNl_append, countNl_eq_zero indent hind,
      countNl_eq_zero (s.take W) (fun x hx => hs x (List.take_subset W s hx)),
      hcons, countNl_wrapChunks indent W hW hind (s.drop W)
        (fun x hx => hs x (List.drop_subset W s hx)),
      List.length_drop]
    have hdiv : s.length / W = (s.length - W) / W + 1 := by
      conv_lhs => rw [show s.length = (s.length - W) + W by omega]
      rw [Nat.add_div_right _ hW]
    omega
  · have hunf : wrapChunks indent W s = s := by
      rw [wrapChunks]; exact dif_neg (by omega)
    rw [hunf, countNl_eq_zero s hs, Nat.div_eq_of_lt (by omega)]
termination_by s.length
decreasing_by simp only [List.length_drop]; omega

theorem splitLines_no_nl (l : List Char) (h : ∀ x ∈ l, x ≠ '\n') :
    splitLines l = [l] := by
  induction l with
  | nil => rfl
  | cons c rest ih =>
    simp only [splitLines, if_neg (h c (by simp)),
      ih (fun y hy => h y (by simp [hy]))]

theorem splitLines_cons_of_ne (c : Char) (l : List Char) (hc : c ≠ '\n') :
    splitLines (c :: l) = match splitLines l with
      | [] => [[c]]
      | m :: ms => (c :: m) :: ms := by
  rw [splitLines, if_neg hc]

theorem splitLines_append_nl (a b : List Char) (h : ∀ x ∈ a, x ≠ '\n') :
    splitLines (a ++ '\n' :: b) = a :: splitLines b := by
  induction a with
  | nil => simp [splitLines]
  | cons c rest ih =>
    rw [List.cons_append, splitLines_cons_of_ne c _ (h c (by simp)),
      ih (fun y hy => h y (by simp [hy]))]

theorem splitLines_wrapChunks (indent : List Char) (W : Nat) (hW : 0 < W)
    (hind : ∀ x ∈ indent, x ≠ '\n')
    (s : List Char) (hs : ∀ x ∈ s, x ≠ '\n') :
    ∀ seg ∈ splitLines (wrapChunks indent W s), seg.length ≤ indent.length + W := by
  by_cases h : W ≤ s.length
  · rw [wrapChunks, dif_pos ⟨hW, h⟩]
    have hshape : indent ++ s.take W ++ '\n' :: wrapChunks indent W (s.drop W)
        = (indent ++ s.take W) ++ '\n' :: wrapChunks indent W (s.drop W) := by
      simp [List.append_assoc]
    rw [hshape, splitLines_append_nl (indent ++ s.take W) _
      (by intro x hx
          rcases List.mem_append.mp hx with hx' | hx'
          · exact hind x hx'
          · exact hs x (List.take_subset W s hx'))]
    intro seg hseg
    rcases List.mem_cons.mp hseg with rfl | hseg'
    · simp only [List.length_append, List.length_take]
      omega
    · exact splitLines_wrapChunks indent W hW hind (s.drop W)
        (fun x hx => hs x (List.drop_subset W s hx)) seg hseg'
  · rw [wrapChunks, dif_neg (by omega), splitLines_no_nl s hs]
    intro seg hseg
    rcases List.mem_singleton.mp hseg with rfl
    omega
termination_by s.length
decreasing_by simp only [List.length_drop]; omega

theorem foldl_wrapStep_lines (indent : List Char) (W : Nat) :
    ∀ (ls : List (List Char)) (ret0 : List Char) (fl0 : Bool),
    (∀ l ∈ ls, (∀ x ∈ l, x ≠ '\n') ∧ l.length < W) →
    ((ls.map (fun l => l ++ ['\n'])).flatten.foldl
        (wrapStep id indent (indent.length + W) true) ⟨ret0, [], fl0⟩)
      = ⟨ret0 ++ (ls.map (fun l => indent ++ l ++ ['\n'])).flatten, [],
          if ls = [] then fl0 else false⟩ := by
  intro ls
  induction ls with
  | nil => intro ret0 fl0 _; simp
  | cons l rest ih =>
    intro ret0 fl0 h
    rw [List.map_cons, List.flatten_cons, List.foldl_append,
      foldl_wrapStep_line indent W l (h l (by simp)).1 (h l (by simp)).2 ret0 fl0,
      ih _ false (fun m hm => h m (by simp [hm]))]
    simp [List.append_assoc]

theorem strFind_some (search : List Char) :
    ∀ (l : List Char) (p : Nat), strFind search l = some p →
    search.isPrefixOf (l.drop p) = true ∧
      ∀ q, q < p → search.isPrefixOf (l.drop q) = false := by
  intro l
  induction l with
  | nil =>
    intro p hp
    unfold strFind at hp
    by_cases hs : search = []
    · rw [if_pos hs] at hp
      obtain rfl : (0 : Nat) = p := Option.some.inj hp
      exact ⟨by simp [hs, List.isPrefixOf], by intro q hq; omega⟩
    · rw [if_neg hs] at hp
      exact absurd hp (by simp)
  | cons c rest ih =>
    intro p hp
    unfold strFind at hp
    by_cases hpre : search.isPrefixOf (c :: rest) = true
    · rw [if_pos hpre] at hp
      obtain rfl : (0 : Nat) = p := Option.some.inj hp
      exact ⟨by simpa using hpre, by intro q hq; omega⟩
    · rw [if_neg hpre] at hp
      cases hfind : strFind search rest with
      | none => rw [hfind] at hp; simp at hp
      | some p' =>
        rw [hfind] at hp
        simp at hp
        have hpeq : p = p' + 1 := by omega
        obtain ⟨hpf, hmin⟩ := ih p' hfind
        constructor
        · rw [hpeq, List.drop_succ_cons]
          exact hpf
        · intro q hq
          cases q with
          | zero =>
            simp only [List.drop_zero]
            cases h2 : search.isPrefixOf (c :: rest) with
            | true => exact absurd h2 hpre
            | false => rfl
          | succ q' =>
            rw [List.drop_succ_cons]
            exact hmin q' (by omega)

theorem strFind_none (search : List Char) :
    ∀ (l : List Char), strFind search l = none →
    ∀ q, search.isPrefixOf (l.drop q) = false := by
  intro l
  induction l with
  | nil =>
    intro hp q
    unfold strFind at hp
    by_cases hs : search = []
    · rw [if_pos hs] at hp; exact absurd hp (by simp)
    · cases hsrch : search with
      | nil => exact absurd hsrch hs
      | cons a as => simp [List.isPrefixOf]
  | cons c rest ih =>
    intro hp q
    unfold strFind at hp
    by_cases hpre : search.isPrefixOf (c :: rest) = true
    · rw [if_pos hpre] at hp; exact absurd hp (by simp)
    · rw [if_neg hpre] at hp
      cases q with
      | zero =>
        simp only [List.drop_zero]
        cases h2 : search.isPrefixOf (c :: rest) with
        | true => exact absurd h2 hpre
        | false => rfl
      | succ q' =>
        rw [List.drop_succ_cons]
        refine ih ?_ q'
        cases hfind : strFind search rest with
        | none => rfl
        | some p' => rw [hfind] at hp; simp at hp

theorem pairFlatten_length {α : Type} (f g : Nat → α) (n : Nat) :
    (((List.range n).map (fun i => [f i, g i])).flatten).length = 2 * n := by
  induction n with
  | zero => simp
  | succ m ih =>
    rw [List.range_succ, List.map_append, List.flatten_append, List.length_append, ih]
    have h2 : ((List.map (fun i => [f i, g i]) [m]).flatten).length = 2 := rfl
    rw [h2]
    omega

theorem pairFlatten_get {α : Type} (f g : Nat → α) (n : Nat) :
    ∀ i, i < n →
    (((List.range n).map (fun j => [f j, g j])).flatten)[2 * i]? = some (f i)
    ∧ (((List.range n).map (fun j => [f j, g j])).flatten)[2 * i + 1]? = some (g i) := by
  induction n with
  | zero => intro i hi; omega
  | succ m ih =>
    intro i hi
    rw [List.range_succ, List.map_append, List.flatten_append]
    have hlen := pairFlatten_length f g m
    by_cases him : i < m
    · rw [List.getElem?_append_left (by omega), List.getElem?_append_left (by omega)]
      exact ih i him
    · have hieq : i = m := by omega
      subst hieq
      rw [List.getElem?_append_right (by omega), List.getElem?_append_right (by omega), hlen]
      constructor
      · rw [Nat.sub_self]
        simp
      · rw [show 2 * i + 1 - 2 * i = 1 by omega]
        simp

theorem newlineFlagUpdate_spec (wrapped : List Char) (fl : Bool) :
    (wrapped ≠ [] → (newlineFlagUpdate wrapped fl = true ↔ wrapped.getLast? = some '\n'))
    ∧ (wrapped = [] → newlineFlagUpdate wrapped fl = fl) := by
  constructor
  · intro hne
    have hlen : wrapped.length ≠ 0 := fun h => hne (List.length_eq_zero.mp h)
    unfold newlineFlagUpdate
    by_cases hl : wrapped.getLast? = some '\n'
    · rw [if_pos ⟨hlen, hl⟩]
      simp [hl]
    · rw [if_neg (by intro hc; exact hl hc.2), if_pos hne]
      simp [hl]
  · intro he
    subst he
    unfold newlineFlagUpdate
    simp

/-- C1: for every sink and every Log call whose wrapped output is non-empty,
the new m_lastMessageWasNewline is true exactly when the last character
written by that call is a newline; a call whose wrapped output is empty
leaves the flag unchanged; and the first line of the next message carries
the indent prefix only when the flag was true: the flag's entire effect on
WrapString is at most one leading copy of the indent on the first flushed
line. -/
theorem log_endedWithNewline_tracks_last_char
    (m_min_severity : Nat) (g_logToStdoutAlways : Bool) (m_termWidth : Nat)
    (indent : List Char) (fl : Bool) (severity : Nat) (msg : List Char) :
    (∀ wrapped strm,
      (STDLogSink.Log m_min_severity g_logToStdoutAlways m_termWidth indent fl
          severity msg).1 = some (wrapped, strm) →
        ((wrapped ≠ [] →
          ((STDLogSink.Log m_min_severity g_logToStdoutAlways m_termWidth indent fl
              severity msg).2 = true ↔ wrapped.getLast? = some '\n'))
         ∧ (wrapped = [] →
          (STDLogSink.Log m_min_severity g_logToStdoutAlways m_termWidth indent fl
              severity msg).2 = fl)))
    ∧ (∀ wrapped,
      (FILELogSink.Log m_min_severity m_termWidth indent fl severity msg).1
          = some wrapped →
        ((wrapped ≠ [] →
          ((FILELogSink.Log m_min_severity m_termWidth indent fl severity msg).2 = true
            ↔ wrapped.getLast? = some '\n'))
         ∧ (wrapped = [] →
          (FILELogSink.Log m_min_severity m_termWidth indent fl severity msg).2 = fl)))
    ∧ (WrapString id indent m_termWidth true msg
        = WrapString id indent m_termWidth false msg
       ∨ WrapString id indent m_termWidth true msg
          = indent ++ WrapString id indent m_termWidth false msg) := by
  refine ⟨?_, ?_, wrapString_flag_relation indent m_termWidth msg⟩
  · intro wrapped strm heq
    by_cases hsev : m_min_severity < severity
    · rw [STDLogSink.Log, if_pos hsev] at heq
      exact absurd heq (by simp)
    · rw [STDLogSink.Log, if_neg hsev] at heq
      simp only [Option.some.injEq, Prod.mk.injEq] at heq
      obtain ⟨hw, -⟩ := heq
      have hres : (STDLogSink.Log m_min_severity g_logToStdoutAlways m_termWidth indent fl
          severity msg).2
          = newlineFlagUpdate (WrapString id indent m_termWidth fl msg) fl := by
        rw [STDLogSink.Log, if_neg hsev]
      rw [hres, hw]
      exact newlineFlagUpdate_spec wrapped fl
  · intro wrapped heq
    by_cases hsev : m_min_severity < severity
    · rw [FILELogSink.Log, if_pos hsev] at heq
      exact absurd heq (by simp)
    · rw [FILELogSink.Log, if_neg hsev] at heq
      simp only [Option.some.injEq] at heq
      have hres : (FILELogSink.Log m_min_severity m_termWidth indent fl severity msg).2
          = newlineFlagUpdate (WrapString id indent m_termWidth fl msg) fl := by
        rw [FILELogSink.Log, if_neg hsev]
      rw [hres, heq]
      exact newlineFlagUpdate_spec wrapped fl

/-- Witness for C1 at a DEBUG-threshold STDLogSink and a NOTICE message
"hi\n", whose wrapped output ends in a newline: the flag becomes true. -/
theorem log_endedWithNewline_tracks_last_char_witness :
    (STDLogSink.Log 6 false 120 [] true 4 ['h', 'i', '\n']).1
      = some (['h', 'i', '\n'], Stream.stdout)
    ∧ ((STDLogSink.Log 6 false 120 [] true 4 ['h', 'i', '\n']).2 = true
        ↔ (['h', 'i', '\n'] : List Char).getLast? = some '\n') :=
  ⟨by decide,
   ((log_endedWithNewline_tracks_last_char 6 false 120 [] true 4 ['h', 'i', '\n']).1
      ['h', 'i', '\n'] Stream.stdout (by decide)).1 (by decide)⟩

/-- C2 counterexample: with indent " " and width 120, the newline-free input
"abc" (shorter than maxWidth - indentLength) is returned without the indent
even though the previous message ended with a newline, refuting
"returns the indent string followed by the input". -/
theorem wrap_short_input_counterexample :
    WrapString id [' '] 120 true ['a', 'b', 'c'] = ['a', 'b', 'c']
    ∧ WrapString id [' '] 120 true ['a', 'b', 'c'] ≠ [' '] ++ ['a', 'b', 'c'] := by
  decide

/-- C2 amended: for every newline-free input shorter than
maxWidth - indentLength, WrapString returns the input unchanged with no
indent prepended, regardless of the previous ended-with-newline state
(indent is only applied to flushed lines, and such an input never flushes). -/
theorem wrap_short_input_unchanged (indent : List Char) (w : Nat) (fl : Bool)
    (s : List Char) (hs : ∀ x ∈ s, x ≠ '\n')
    (hlen : s.length + indent.length < w) :
    WrapString id indent w fl s = s := by
  rw [wrapString_eq_ret_tmp,
    foldl_wrapStep_fill id indent w fl s [] [] true hs
      (by simp only [List.length_nil]; omega)]
  simp

/-- Witness for C2's amended claim at indent "  ", width 120, input "xy" and
previous-ended-with-newline false. -/
theorem wrap_short_input_unchanged_witness :
    (∀ x ∈ (['x', 'y'] : List Char), x ≠ '\n')
    ∧ (['x', 'y'] : List Char).length + ([' ', ' '] : List Char).length < 120
    ∧ WrapString id [' ', ' '] 120 false ['x', 'y'] = ['x', 'y'] :=
  ⟨by decide, by decide,
   wrap_short_input_unchanged [' ', ' '] 120 false ['x', 'y'] (by decide) (by decide)⟩

/-- C3 counterexample: indent " ", maxWidth 3 (so W = 2), input "abcd"
(k = 2, W divides k): the code inserts 2 forced newlines, not
ceil(k / W) = 1 as the claim states. -/
theorem wrap_forced_break_count_counterexample :
    countNl (WrapString id [' '] 3 true ['a', 'b', 'c', 'd']) = 2
    ∧ countNl (WrapString id [' '] 3 true ['a', 'b', 'c', 'd']) ≠ 1 := by
  decide

/-- C3 amended: for a newline-free input of length W + k with
W = maxWidth - indentLength > 0, WrapString flushes whenever indent plus
content reaches maxWidth, inserting a forced newline; the output contains
k / W + 1 forced breaks (this equals ceil(k / W) unless W divides k, when
it is one more), and every emitted segment including its indent is at most
maxWidth characters long. -/
theorem wrap_forced_breaks (indent : List Char) (W k : Nat)
    (hW : 0 < W) (_hk : 0 < k)
    (hind : ∀ x ∈ indent, x ≠ '\n')
    (s : List Char) (hs : ∀ x ∈ s, x ≠ '\n') (hlen : s.length = W + k) :
    countNl (WrapString id indent (indent.length + W) true s) = k / W + 1
    ∧ ∀ seg ∈ splitLines (WrapString id indent (indent.length + W) true s),
        seg.length ≤ indent.length + W := by
  have hwrap : WrapString id indent (indent.length + W) true s
      = wrapChunks indent W s := by
    rw [wrapString_eq_ret_tmp]
    simpa using foldl_wrapStep_chunks indent W hW s hs [] true
  rw [hwrap]
  refine ⟨?_, splitLines_wrapChunks indent W hW hind s hs⟩
  rw [countNl_wrapChunks indent W hW hind s hs, hlen, Nat.add_comm W k,
    Nat.add_div_right _ hW]

/-- Witness for C3's amended claim at indent " ", W = 2, k = 3,
input "abcde": 3 / 2 + 1 = 2 forced breaks. -/
theorem wrap_forced_breaks_witness :
    countNl (WrapString id [' '] (([' '] : List Char).length + 2) true
        ['a', 'b', 'c', 'd', 'e']) = 3 / 2 + 1
    ∧ ∀ seg ∈ splitLines (WrapString id [' '] (([' '] : List Char).length + 2) true
        ['a', 'b', 'c', 'd', 'e']), seg.length ≤ ([' '] : List Char).length + 2 :=
  wrap_forced_breaks [' '] 2 3 (by decide) (by decide) (by decide)
    ['a', 'b', 'c', 'd', 'e'] (by decide) (by decide)

/-- C4: a message whose numeric severity exceeds the sink's m_min_severity is
dropped with no side effects by both sink variants and both Log overloads:
nothing is written, the ended-with-newline state is unchanged, and the
vstrprintf formatter thunk is never forced (the result is the same for any
formatter). -/
theorem severity_filter_no_side_effects
    (m_min_severity : Nat) (g_logToStdoutAlways : Bool) (m_termWidth : Nat)
    (indent : List Char) (fl : Bool) (severity : Nat)
    (vstrprintfResult : Unit → List Char)
    (h : m_min_severity < severity) :
    STDLogSink.LogVa m_min_severity g_logToStdoutAlways m_termWidth indent fl severity
        vstrprintfResult = (none, fl)
    ∧ FILELogSink.LogVa m_min_severity m_termWidth indent fl severity vstrprintfResult
        = (none, fl)
    ∧ (∀ other : Unit → List Char,
        STDLogSink.LogVa m_min_severity g_logToStdoutAlways m_termWidth indent fl
            severity vstrprintfResult
          = STDLogSink.LogVa m_min_severity g_logToStdoutAlways m_termWidth indent fl
            severity other
        ∧ FILELogSink.LogVa m_min_severity m_termWidth indent fl severity vstrprintfResult
          = FILELogSink.LogVa m_min_severity m_termWidth indent fl severity other)
    ∧ STDLogSink.Log m_min_severity g_logToStdoutAlways m_termWidth indent fl severity
        (vstrprintfResult ()) = (none, fl)
    ∧ FILELogSink.Log m_min_severity m_termWidth indent fl severity
        (vstrprintfResult ()) = (none, fl) := by
  refine ⟨?_, ?_, ?_, ?_, ?_⟩ <;>
    simp [STDLogSink.LogVa, FILELogSink.LogVa, STDLogSink.Log, FILELogSink.Log, h]

/-- Witness for C4: a Warning-threshold sink drops a Notice message with no
state change, independently of the formatter. -/
theorem severity_filter_no_side_effects_witness :
    (3 : Nat) < 4
    ∧ STDLogSink.LogVa 3 false 120 [] true 4 (fun _ => ['h', 'i']) = (none, true)
    ∧ FILELogSink.LogVa 3 120 [] true 4 (fun _ => ['h', 'i']) = (none, true)
    ∧ STDLogSink.LogVa 3 false 120 [] true 4 (fun _ => ['h', 'i'])
        = STDLogSink.LogVa 3 false 120 [] true 4 (fun _ => ['b', 'y', 'e']) :=
  ⟨by decide,
   (severity_filter_no_side_effects 3 false 120 [] true 4 (fun _ => ['h', 'i'])
      (by decide)).1,
   (severity_filter_no_side_effects 3 false 120 [] true 4 (fun _ => ['h', 'i'])
      (by decide)).2.1,
   ((severity_filter_no_side_effects 3 false 120 [] true 4 (fun _ => ['h', 'i'])
      (by decide)).2.2.1 (fun _ => ['b', 'y', 'e'])).1⟩

/-- C5: LogFatal delivers to each registered sink, in registration order,
first "INTERNAL ERROR: " followed by the formatted text and then the
bug-report notice, both at FATAL severity; abort() is the last event of the
trace, so it happens only after every sink has received both messages, it is
unconditional, and it occurs even with zero sinks registered. -/
theorem logFatal_dispatch (numSinks : Nat) (body : List Char) :
    (LogFatal numSinks body).getLast? = some LogEvent.processAbort
    ∧ (LogFatal numSinks body).length = 2 * numSinks + 1
    ∧ (∀ i, i < numSinks →
        (LogFatal numSinks body)[2 * i]?
          = some (LogEvent.deliver i Severity.FATAL
              ("INTERNAL ERROR: ".toList ++ body))
        ∧ (LogFatal numSinks body)[2 * i + 1]?
          = some (LogEvent.deliver i Severity.FATAL bugReportLine))
    ∧ LogFatal 0 body = [LogEvent.processAbort] := by
  have hlen := pairFlatten_length
    (fun i => LogEvent.deliver i Severity.FATAL ("INTERNAL ERROR: ".toList ++ body))
    (fun i => LogEvent.deliver i Severity.FATAL bugReportLine) numSinks
  refine ⟨?_, ?_, ?_, ?_⟩
  · exact List.getLast?_concat _
  · rw [LogFatal, List.length_append, hlen]
    rfl
  · intro i hi
    have hget := pairFlatten_get
      (fun i => LogEvent.deliver i Severity.FATAL ("INTERNAL ERROR: ".toList ++ body))
      (fun i => LogEvent.deliver i Severity.FATAL bugReportLine) numSinks i hi
    rw [LogFatal]
    rw [List.getElem?_append_left (by omega), List.getElem?_append_left (by omega)]
    exact hget
  · rfl

/-- Witness for C5 at two sinks and formatted body "bad state 42", matching
the spec's Fatal-dispatch test. -/
theorem logFatal_dispatch_witness :
    (0 : Nat) < 2
    ∧ (LogFatal 2 "bad state 42".toList)[2 * 0]?
        = some (LogEvent.deliver 0 Severity.FATAL
            ("INTERNAL ERROR: ".toList ++ "bad state 42".toList))
    ∧ (LogFatal 2 "bad state 42".toList)[2 * 0 + 1]?
        = some (LogEvent.deliver 0 Severity.FATAL bugReportLine)
    ∧ (LogFatal 2 "bad state 42".toList).getLast? = some LogEvent.processAbort :=
  ⟨by decide,
   ((logFatal_dispatch 2 "bad state 42".toList).2.2.1 0 (by decide)).1,
   ((logFatal_dispatch 2 "bad state 42".toList).2.2.1 0 (by decide)).2,
   (logFatal_dispatch 2 "bad state 42".toList).1⟩

/-- C6 counterexample: indent " ", maxWidth 10, input "ab\n" (a single
newline-terminated line shorter than maxWidth): wrapping the wrapped output
again prepends the indent a second time, refuting idempotence. -/
theorem wrap_idempotence_counterexample :
    WrapString id [' '] 10 true (WrapString id [' '] 10 true ['a', 'b', '\n'])
      ≠ WrapString id [' '] 10 true ['a', 'b', '\n'] := by
  decide

/-- C6 amended: wrapping a string made only of newline-terminated lines each
shorter than maxWidth - indentLength reproduces the line contents with the
indent prepended to each line (previous message ended with a newline); since
every wrap pass prepends the sink's indent to every flushed line, the
operation is idempotent exactly in the empty-indent case, where the input is
reproduced unchanged. -/
theorem wrap_lines_roundtrip (indent : List Char) (W : Nat)
    (ls : List (List Char)) (_hW : 0 < W)
    (h : ∀ l ∈ ls, (∀ x ∈ l, x ≠ '\n') ∧ l.length < W) :
    WrapString id indent (indent.length + W) true
        ((ls.map (fun l => l ++ ['\n'])).flatten)
      = (ls.map (fun l => indent ++ l ++ ['\n'])).flatten
    ∧ WrapString id [] W true
        (WrapString id [] W true ((ls.map (fun l => l ++ ['\n'])).flatten))
      = WrapString id [] W true ((ls.map (fun l => l ++ ['\n'])).flatten) := by
  have hmain : ∀ ind : List Char,
      WrapString id ind (ind.length + W) true
          ((ls.map (fun l => l ++ ['\n'])).flatten)
        = (ls.map (fun l => ind ++ l ++ ['\n'])).flatten := by
    intro ind
    rw [wrapString_eq_ret_tmp, foldl_wrapStep_lines ind W ls [] true h]
    simp
  have hnil : WrapString id [] W true ((ls.map (fun l => l ++ ['\n'])).flatten)
      = (ls.map (fun l => l ++ ['\n'])).flatten := by
    have hthis := hmain []
    simp only [List.length_nil, Nat.zero_add, List.nil_append] at hthis
    exact hthis
  exact ⟨hmain indent, by rw [hnil, hnil]⟩

/-- Witness for C6's amended claim at indent " ", W = 5, one line "hi". -/
theorem wrap_lines_roundtrip_witness :
    (∀ l ∈ ([['h', 'i']] : List (List Char)), (∀ x ∈ l, x ≠ '\n') ∧ l.length < 5)
    ∧ WrapString id [' '] (([' '] : List Char).length + 5) true
        (([[ 'h', 'i']].map (fun l => l ++ ['\n'])).flatten)
      = ([[ 'h', 'i']].map (fun l => [' '] ++ l ++ ['\n'])).flatten
    ∧ WrapString id [] 5 true
        (WrapString id [] 5 true (([[ 'h', 'i']].map (fun l => l ++ ['\n'])).flatten))
      = WrapString id [] 5 true (([[ 'h', 'i']].map (fun l => l ++ ['\n'])).flatten) :=
  ⟨by decide,
   (wrap_lines_roundtrip [' '] 5 [['h', 'i']] (by decide) (by decide)).1,
   (wrap_lines_roundtrip [' '] 5 [['h', 'i']] (by decide) (by decide)).2⟩

/-- C7 counterexample: on input "INTERNAL ERROR: x" the keyword loop matches
"INTERNAL ERROR:" and then matches "ERROR:" again inside the already-
colorized text, so two patterns are applied (chaining), refuting "only the
first matching pattern across the whole keyword list is applied per call". -/
theorem preprocessLine_chaining_counterexample :
    ColoredSTDLogSink.PreprocessLine "INTERNAL ERROR: x".toList
      = ansiRed ++ ansiRed ++ "INTERNAL ERROR:".toList
        ++ ansiClear ++ ansiClear ++ " x".toList
    ∧ ColoredSTDLogSink.PreprocessLine "INTERNAL ERROR: x".toList
      ≠ ansiRed ++ "INTERNAL ERROR:".toList ++ ansiClear ++ " x".toList := by
  decide

/-- C7 amended: PreprocessLine tries each keyword-plus-colon pattern in the
fixed order (red keywords, then yellow), each search running on the line as
rewritten so far, so a later keyword may match text produced by an earlier
substitution (chaining can occur).  Each single substitution wraps the line
prefix through the end of the first occurrence of "keyword:" in the
color-start marker and inserts the reset immediately after, leaving the
remainder unstyled; a line without the pattern is unchanged; and the
spec example "ERROR: disk full" yields exactly
"\x1b[31;1mERROR:\x1b[0m disk full". -/
theorem preprocessLine_replace_spec :
    (∀ search before after subject : List Char, ∀ p,
      strFind search subject = some p →
        ColoredSTDLogSink.replace search before after subject
          = before ++ subject.take (p + search.length) ++ after
            ++ subject.drop (p + search.length)
        ∧ search.isPrefixOf (subject.drop p) = true
        ∧ ∀ q, q < p → search.isPrefixOf (subject.drop q) = false)
    ∧ (∀ search before after subject : List Char,
        strFind search subject = none →
          ColoredSTDLogSink.replace search before after subject = subject
          ∧ ∀ q, search.isPrefixOf (subject.drop q) = false)
    ∧ ColoredSTDLogSink.PreprocessLine "ERROR: disk full".toList
        = "\x1b[31;1mERROR:\x1b[0m disk full".toList := by
  refine ⟨?_, ?_, by decide⟩
  · intro search before after subject p hp
    obtain ⟨hpf, hmin⟩ := strFind_some search subject p hp
    refine ⟨?_, hpf, hmin⟩
    rw [ColoredSTDLogSink.replace, hp]
  · intro search before after subject hp
    refine ⟨?_, strFind_none search subject hp⟩
    rw [ColoredSTDLogSink.replace, hp]

/-- Witness for C7's amended claim: "ERROR:" first occurs at position 0 of
"ERROR: disk full", and replace wraps it in the markers. -/
theorem preprocessLine_replace_spec_witness :
    strFind "ERROR:".toList "ERROR: disk full".toList = some 0
    ∧ ColoredSTDLogSink.replace "ERROR:".toList ansiRed ansiClear
        "ERROR: disk full".toList
      = ansiRed ++ "ERROR: disk full".toList.take (0 + "ERROR:".toList.length)
        ++ ansiClear ++ "ERROR: disk full".toList.drop (0 + "ERROR:".toList.length) :=
  ⟨by decide,
   (preprocessLine_replace_spec.1 "ERROR:".toList ansiRed ansiClear
      "ERROR: disk full".toList 0 (by decide)).1⟩

/-- C8: evaluation of the trace filter at the failing input: with the
empty-string filter entry (produced by the --trace "::" normalization at
log.cpp:220-221), a free-function trace whose parsed name is "foo" is
suppressed, because the lookup key built at log.cpp:399 is "::foo", which is
never the empty string. -/
theorem trace_empty_filter_free_function_suppressed :
    traceFilterAllows [([] : List Char)] [] "foo".toList = false := by
  decide

/-- C9 counterexample: a destructor invocation at depth 0 wraps the unsigned
counter to 2^32 - 1 instead of clamping at zero, refuting "never underflows
... must not corrupt the indent state (clamping at zero is acceptable)". -/
theorem logIndenter_underflow_counterexample :
    LogIndenter.destruct 0 = 4294967295 ∧ LogIndenter.destruct 0 ≠ 0 := by
  constructor
  · rfl
  · decide

/-- C9 amended: each LogIndenter construction increments and each
destruction decrements the per-thread unsigned counter, and destruction
undoes the matching construction at every depth, so balanced RAII nesting
never underflows: three nested scopes then one exit give depth 2, and
destroying all scopes in reverse creation order restores depth 0.  An
unmatched destructor at depth 0, however, wraps the unsigned counter to
2^32 - 1 rather than clamping at zero (such a call cannot arise through the
RAII interface, where every destructor is preceded by its constructor). -/
theorem logIndenter_scope_behavior (d : Nat) (hd : d < UINT_MOD) :
    (d + 1 < UINT_MOD → LogIndenter.construct d = d + 1)
    ∧ (0 < d → LogIndenter.destruct d = d - 1)
    ∧ LogIndenter.destruct (LogIndenter.construct d) = d
    ∧ LogIndenter.construct (LogIndenter.construct (LogIndenter.construct 0)) = 3
    ∧ LogIndenter.destruct (LogIndenter.construct (LogIndenter.construct
        (LogIndenter.construct 0))) = 2
    ∧ LogIndenter.destruct (LogIndenter.destruct (LogIndenter.destruct
        (LogIndenter.construct (LogIndenter.construct (LogIndenter.construct 0))))) = 0 := by
  refine ⟨?_, ?_, ?_, by decide, by decide, by decide⟩
  · intro h1
    unfold LogIndenter.construct UINT_MOD at *
    omega
  · intro h1
    unfold LogIndenter.destruct UINT_MOD at *
    omega
  · unfold LogIndenter.construct LogIndenter.destruct UINT_MOD at *
    omega

/-- Witness for C9's amended claim at depth 5. -/
theorem logIndenter_scope_behavior_witness :
    (5 : Nat) < UINT_MOD
    ∧ LogIndenter.construct 5 = 6
    ∧ LogIndenter.destruct 5 = 4
    ∧ LogIndenter.destruct (LogIndenter.construct 5) = 5 :=
  ⟨by decide,
   (logIndenter_scope_behavior 5 (by decide)).1 (by decide),
   (logIndenter_scope_behavior 5 (by decide)).2.1 (by decide),
   (logIndenter_scope_behavior 5 (by decide)).2.2.1⟩

/-- C10: for a member-function trace (non-empty parsed class), the filter is
consulted only for the bare class name, so the singleton filter entry
"Class::function" built from that very trace never enables it; and for free
functions the lookup key is "::" prepended to the parsed function name, so a
filter entry equal to the bare function name never enables a free-function
trace. -/
theorem trace_filter_lookup_keys (g_trace_filters : List (List Char))
    (cls name : List Char) :
    (cls ≠ [] →
      (traceFilterAllows g_trace_filters cls name = true ↔ cls ∈ g_trace_filters))
    ∧ (cls ≠ [] →
      traceFilterAllows [cls ++ (':' :: ':' :: []) ++ name] cls name = false)
    ∧ (traceFilterAllows g_trace_filters [] name = true
        ↔ (':' :: ':' :: []) ++ name ∈ g_trace_filters)
    ∧ traceFilterAllows [name] [] name = false := by
  refine ⟨?_, ?_, ?_, ?_⟩
  · intro hcls
    rw [traceFilterAllows, if_neg hcls]
    simp
  · intro hcls
    rw [traceFilterAllows, if_neg hcls]
    have hne : cls ≠ cls ++ (':' :: ':' :: []) ++ name := by
      intro he
      have hl := congrArg List.length he
      simp only [List.length_append, List.length_cons, List.length_nil] at hl
      omega
    simp [hne]
  · rw [traceFilterAllows, if_pos rfl]
    simp
  · rw [traceFilterAllows, if_pos rfl]
    have hne : (':' :: ':' :: name) ≠ name := by
      intro he
      have hl := congrArg List.length he
      simp only [List.length_cons] at hl
      omega
    simp [hne]

/-- Witness for C10 with parsed class "Resolver", function "f": the
class-qualified entry does not enable the member trace, while the bare class
entry does. -/
theorem trace_filter_lookup_keys_witness :
    ("Resolver".toList ≠ ([] : List Char))
    ∧ (traceFilterAllows ["Resolver".toList] "Resolver".toList "f".toList = true
        ↔ "Resolver".toList ∈ ["Resolver".toList])
    ∧ traceFilterAllows ["Resolver".toList ++ (':' :: ':' :: []) ++ "f".toList]
        "Resolver".toList "f".toList = false :=
  ⟨by decide,
   (trace_filter_lookup_keys ["Resolver".toList] "Resolver".toList "f".toList).1
     (by decide),
   (trace_filter_lookup_keys ["Resolver".toList] "Resolver".toList "f".toList).2.1
     (by decide)⟩

end Logtools
